import Mathlib

/-!
Verification of the Hippoplan task-planning core against its source.

The development shallowly embeds the three core pieces of the program:

* the task registry (`handleTasksChange` in `src/App.tsx`, the spec's
  `reconcile`), together with the JS `Map`-based content lookup;
* the schedule board (`scheduleTask` in `src/App.tsx`, `getTaskForSlot` in
  the weekly-schedule component) and the priority ordering (`sortedTasks`);
* the speech-capture session of `src/components/MindFlow.tsx`
  (`startListening`, `stopListening`, and the `onstart` / `onresult` /
  `onend` recognition callbacks), modelled as a state machine over
  `CaptureState`.

JS strings are Lean `String`s; `String.prototype.trim` is modelled by
`jsTrim` on the underlying character list.  The id generator
(`Math.random().toString(36).substr(2, 9)`) is abstracted as a function
`gen : Nat → String` giving the result of the k-th generator call;
freshness and injectivity of the generated ids become explicit hypotheses.
-/

namespace Hippoplan

/-- Model of JS `String.prototype.trim` on the character list: drop leading
and trailing whitespace. -/
def trimChars (cs : List Char) : List Char :=
  ((cs.dropWhile Char.isWhitespace).reverse.dropWhile Char.isWhitespace).reverse

/-- Model of JS `String.prototype.trim`: strip leading and trailing
whitespace from a string. -/
def jsTrim (s : String) : String :=
  String.mk (trimChars s.data)

/-- Task record from `src/types.ts`.  `priority` is optional `1|2|3|4` in the
source and `handleTasksChange` initialises it with the out-of-band value `0`
("no priority"); both unset and `0` are treated as unprioritized by every
consumer (`!t.priority`, `t.priority || 4`), so the model uses `Nat` with
`0` standing for "unprioritized". -/
structure Task where
  id : String
  content : String
  priority : Nat
deriving DecidableEq, Repr, Inhabited

/-- Lookup in the JS `Map` that `handleTasksChange` builds from
`prevTasks.map(task => [task.content, task])`: `Map` construction lets later
entries overwrite earlier ones, so `get(content)` returns the <em>last</em>
task of `prevTasks` with that content, modelled as `find?` on the reversed
list. -/
def existingTaskFor (prevTasks : List Task) (content : String) : Option Task :=
  prevTasks.reverse.find? (fun t => t.content == content)

/-- Recursive worker for `handleTasksChange`: walk the new contents in
order, reusing the existing task with matching content when the `Map`
lookup hits, and otherwise creating a new task whose id is the result of
the next id-generator call (`k` counts the generator calls made so far)
with `priority := 0`. -/
def handleTasksChangeGo (gen : Nat → String) (prevTasks : List Task) :
    List String → Nat → List Task
  | [], _ => []
  | content :: rest, k =>
    match existingTaskFor prevTasks content with
    | some t => t :: handleTasksChangeGo gen prevTasks rest k
    | none => ⟨gen k, content, 0⟩ :: handleTasksChangeGo gen prevTasks rest (k + 1)

/-- Embeds `handleTasksChange` from `src/App.tsx` (the spec's `reconcile`):
maps `newTaskContents` to tasks, preserving existing tasks (matched by
content through the `Map`) and synthesising fresh tasks otherwise; the
result replaces the previous task list. -/
def handleTasksChange (gen : Nat → String) (prevTasks : List Task)
    (newTaskContents : List String) : List Task :=
  handleTasksChangeGo gen prevTasks newTaskContents 0

/-- The `'am' | 'pm'` union from `src/types.ts`. -/
inductive Period where
  | am
  | pm
deriving DecidableEq, Repr

/-- The `TimeSlot` record from `src/types.ts` (a schedule entry). -/
structure TimeSlot where
  day : String
  period : Period
  slot : Nat
  taskId : String
deriving DecidableEq, Repr

/-- The `(day, period, slot)` key test used by `scheduleTask` and
`getTaskForSlot`: `s.day === day && s.period === period && s.slot === slot`. -/
def matchesKey (e : TimeSlot) (day : String) (period : Period) (slot : Nat) : Prop :=
  e.day = day ∧ e.period = period ∧ e.slot = slot

instance (e : TimeSlot) (day : String) (period : Period) (slot : Nat) :
    Decidable (matchesKey e day period slot) := by
  unfold matchesKey
  infer_instance

/-- Embeds `scheduleTask` from `src/App.tsx`: filter out any entry at the
exact `(day, period, slot)` key, then append the new entry (the new entry is
appended unconditionally, for an empty `taskId` as well). -/
def scheduleTask (schedule : List TimeSlot) (day : String) (period : Period)
    (slot : Nat) (taskId : String) : List TimeSlot :=
  (schedule.filter (fun e => decide (¬ matchesKey e day period slot)))
    ++ [⟨day, period, slot, taskId⟩]

/-- Embeds `getTaskForSlot` from the weekly-schedule component: find the
schedule entry at the key; a missing entry or a falsy (empty) `taskId`
resolves to no task, otherwise the task list is searched for the stored id. -/
def getTaskForSlot (tasks : List Task) (schedule : List TimeSlot)
    (day : String) (period : Period) (slot : Nat) : Option Task :=
  match schedule.find? (fun e => decide (matchesKey e day period slot)) with
  | none => none
  | some e => if e.taskId = "" then none else tasks.find? (fun t => t.id == e.taskId)

/-- Effective priority used by the weekly-schedule comparator
`a.priority || 4`: an unprioritized task counts as priority `4`. -/
def effPriority (t : Task) : Nat :=
  if t.priority = 0 then 4 else t.priority

/-- Stable insertion of a task into an (effective-priority-)sorted list:
the task goes in front of the first element whose effective priority is not
smaller, so it precedes the elements of equal priority that follow it in
the original list. -/
def insertByPriority (t : Task) : List Task → List Task
  | [] => [t]
  | u :: us =>
    if effPriority t ≤ effPriority u then t :: u :: us
    else u :: insertByPriority t us

/-- Embeds `sortedTasks` from the weekly-schedule component:
`[...tasks].sort((a, b) => (a.priority || 4) - (b.priority || 4))`.
ECMAScript `Array.prototype.sort` with a consistent comparator is specified
to return the stable comparator-sorted permutation of its input, which is
unique; it is realised here as a stable insertion sort on the comparator
key `a.priority || 4`. -/
def sortedTasks (tasks : List Task) : List Task :=
  tasks.foldr insertByPriority []

/-- Embeds the `useState` initializer of the task list in `src/App.tsx`:
`savedTasks ? JSON.parse(savedTasks) : []`.  The condition is JS
truthiness, so both `null` (modelled as `none`) and the empty string fall
back to the empty default without parsing.  The platform's `JSON.parse`
(plus the implicit decoding to `Task[]`) is abstracted as `parse`, with
`Except.error` standing for a thrown exception.  The source wraps the call
in no `try`/`catch`, so a parse exception escapes the initializer
unhandled. -/
def tasksInit (parse : String → Except String (List Task)) :
    Option String → Except String (List Task)
  | none => Except.ok []
  | some s => if s = "" then Except.ok [] else parse s

/-- Embeds the `useState` initializer of the schedule in `src/App.tsx`:
`savedSchedule ? JSON.parse(savedSchedule) : []` — the same truthiness
check and unguarded parse as the task-list initializer, decoding to
`TimeSlot[]`. -/
def scheduleInit (parse : String → Except String (List TimeSlot)) :
    Option String → Except String (List TimeSlot)
  | none => Except.ok []
  | some s => if s = "" then Except.ok [] else parse s

/-- State of the capture session in `src/components/MindFlow.tsx`.  The
`phrases` list stands for both the `phrases` React state and the
`phrasesRef` mirror (the component keeps them synchronized and every
mutation below goes through `updatePhrases`, which writes both).
`currentFieldIndex` is the mutable variable closed over by the recognition
handlers (`-1` until `onstart` fires).  `capturedIsListening` is the value
of the `isListening` binding captured by the handler closures when
`startListening` installed them: `setIsListening` rebinds `isListening`
only in later renders of the component, so the handlers keep reading the
value from the render in which they were created (the stale-closure hazard
the spec's design notes describe; `phrases` has `phrasesRef` to avoid
exactly this, `isListening` does not). -/
structure CaptureState where
  phrases : List String
  isListening : Bool
  interim : String
  error : Option String
  timeLeft : Option Nat
  currentFieldIndex : Int
  capturedIsListening : Bool
  hasSpoken : Bool
deriving DecidableEq, Repr

/-- A single member of a `SpeechRecognitionEvent`'s result list: its
`isFinal` flag and the transcript of its first alternative. -/
structure RecResult where
  isFinal : Bool
  transcript : String
deriving DecidableEq, Repr

/-- The indexed filter inside `updatePhrases` (`keepEmpty === false`
branch): `finalPhrases.filter((p, i) => p?.trim() || (i === length - 1 &&
isListening))`, written with an explicit running index. -/
def filterWithIndex (pred : Nat → String → Bool) : Nat → List String → List String
  | _, [] => []
  | i, p :: rest =>
    if pred i p then p :: filterWithIndex pred (i + 1) rest
    else filterWithIndex pred (i + 1) rest

/-- Embeds the pruning pass of `updatePhrases` with `keepEmpty = false`:
keep a phrase if its trimmed text is non-blank, or if it is the last field
while `isListening` (as read by the caller) is set. -/
def pruneBlank (isL : Bool) (ps : List String) : List String :=
  filterWithIndex (fun i p => (jsTrim p != "") || ((i == ps.length - 1) && isL)) 0 ps

/-- Embeds `addEmptyField`: append an empty field (through `updatePhrases`
with `keepEmpty = true`, which stores the list unchanged) and return the
new field's index. -/
def addEmptyField (s : CaptureState) : CaptureState × Int :=
  let ps := s.phrases ++ [""]
  ({ s with phrases := ps }, (ps.length : Int) - 1)

/-- Embeds `updateField(index, text)`: if `index` is in bounds
(`index >= 0 && index < currentPhrases.length`), store the text at that
index (through `updatePhrases` with `keepEmpty = true`) and return `true`;
otherwise leave the field list untouched and return `false`. -/
def updateField (s : CaptureState) (index : Int) (text : String) :
    CaptureState × Bool :=
  if 0 ≤ index ∧ index < (s.phrases.length : Int) then
    ({ s with phrases := s.phrases.set index.toNat text }, true)
  else (s, false)

/-- Embeds the happy path of `startListening` up to `recognition.start()`:
clear the error, reset `hasSpokenRef`, start the 120-second countdown, and
install the recognition handlers — which capture the current value of
`isListening` and a fresh `currentFieldIndex = -1`. -/
def startListening (s : CaptureState) : CaptureState :=
  { s with error := none, hasSpoken := false, timeLeft := some 120,
           capturedIsListening := s.isListening, currentFieldIndex := -1 }

/-- Embeds `recognition.onstart`: publish the listening state, clear the
error, and create the initial empty field, remembering its index as the
current field. -/
def onStart (s : CaptureState) : CaptureState :=
  let (s1, idx) := addEmptyField { s with isListening := true, error := none }
  { s1 with currentFieldIndex := idx }

/-- Embeds one iteration of the result loop in `recognition.onresult`: an
interim result only updates the transient preview; a final result is
trimmed, blank text is skipped, and otherwise the text is committed into
the current field (when one is designated and the update succeeds) and a
new empty field is opened and made current. -/
def processResult (s : CaptureState) (r : RecResult) : CaptureState :=
  if r.isFinal then
    let text := jsTrim r.transcript
    if text = "" then s
    else if s.currentFieldIndex = -1 then s
    else
      let res := updateField s s.currentFieldIndex text
      if res.2 then
        let res2 := addEmptyField res.1
        { res2.1 with currentFieldIndex := res2.2, hasSpoken := true }
      else res.1
  else { s with interim := r.transcript }

/-- Embeds `recognition.onresult`: the results from `event.resultIndex` on
are processed in delivery order (an event with no results is a no-op). -/
def onResult (s : CaptureState) (rs : List RecResult) : CaptureState :=
  rs.foldl processResult s

/-- Embeds `recognition.onend`, with the returned `Bool` recording whether
the handler requested a source restart (`recognition.start()`).  The
branch is decided by the closure-captured `isListening` value; the cleanup
branch unpublishes the listening state, discards the interim preview, and
prunes blank fields (`phrasesRef.current.filter(p => p?.trim())` followed
by `updatePhrases(..., false)`, whose own filter reads the same captured
`isListening`). -/
def onEnd (s : CaptureState) : CaptureState × Bool :=
  if s.capturedIsListening then (s, true)
  else
    ({ s with isListening := false, interim := "",
              phrases := pruneBlank s.capturedIsListening
                (s.phrases.filter (fun p => jsTrim p != "")) }, false)

/-- Embeds `stopListening`: stop the source, unpublish the listening
state, and cancel the countdown (field pruning happens in the `onend`
callback that the source fires in response to `recognition.stop()`). -/
def stopListening (s : CaptureState) : CaptureState :=
  { s with isListening := false, timeLeft := none }

/-- The capture state on first load with no saved data: the phrase list
initialises to `[""]` and the session is idle. -/
def initState : CaptureState :=
  { phrases := [""], isListening := false, interim := "", error := none,
    timeLeft := none, currentFieldIndex := -1, capturedIsListening := false,
    hasSpoken := false }

/-- Bucket of tasks with a given effective priority, in original order
(specification helper for stating the stable-sort characterisation). -/
def bucket (i : Nat) (ts : List Task) : List Task :=
  ts.filter (fun t => decide (effPriority t = i))

/-- Concrete id generator used to instantiate witnesses and
counterexamples: the k-th generated id is a run of k copies of the letter
x, so distinct calls give distinct ids. -/
def genX : Nat → String :=
  fun k => String.mk (List.replicate k 'x')

/-- Shorthand for the trimmed non-blank projection of a final-transcript
sequence (specification helper). -/
def committedTexts (evs : List String) : List String :=
  evs.filterMap (fun t => if jsTrim t = "" then none else some (jsTrim t))

/-- A parse behaviour standing for `JSON.parse` applied to malformed
input: the call throws a syntax error instead of returning a value. -/
def malformedParse : String → Except String (List Task) :=
  fun _ => Except.error "SyntaxError: Unexpected end of JSON input"

/-- The same malformed-input parse behaviour for the schedule decoding. -/
def malformedScheduleParse : String → Except String (List TimeSlot) :=
  fun _ => Except.error "SyntaxError: Unexpected end of JSON input"

/-! ## Schedule board lemmas -/

/-- After any `scheduleTask`, the entries at the written `(day, period,
slot)` key are exactly the one new entry. -/
theorem scheduleTask_filter_key (sch : List TimeSlot) (d : String) (p : Period)
    (n : Nat) (tid : String) :
    (scheduleTask sch d p n tid).filter (fun e => decide (matchesKey e d p n))
      = [⟨d, p, n, tid⟩] := by
  unfold scheduleTask
  rw [List.filter_append]
  have h1 : (sch.filter (fun e => decide (¬ matchesKey e d p n))).filter
      (fun e => decide (matchesKey e d p n)) = [] := by
    rw [List.filter_eq_nil_iff]
    intro a ha
    rw [List.mem_filter, decide_eq_true_eq] at ha
    simp only [decide_eq_true_eq]
    exact ha.2
  have h2 : List.filter (fun e => decide (matchesKey e d p n))
      [(⟨d, p, n, tid⟩ : TimeSlot)] = [⟨d, p, n, tid⟩] := by
    simp [matchesKey]
  rw [h1, h2, List.nil_append]

/-- After any `scheduleTask`, `find?` at the written key returns the new
entry. -/
theorem scheduleTask_find?_key (sch : List TimeSlot) (d : String) (p : Period)
    (n : Nat) (tid : String) :
    (scheduleTask sch d p n tid).find? (fun e => decide (matchesKey e d p n))
      = some ⟨d, p, n, tid⟩ := by
  unfold scheduleTask
  rw [List.find?_append]
  have h1 : (sch.filter (fun e => decide (¬ matchesKey e d p n))).find?
      (fun e => decide (matchesKey e d p n)) = none := by
    rw [List.find?_eq_none]
    intro a ha
    rw [List.mem_filter, decide_eq_true_eq] at ha
    simp only [decide_eq_true_eq]
    exact ha.2
  rw [h1]
  simp [List.find?, matchesKey]

/-- C2: at most one schedule entry exists per `(day, period, slot)` key:
after `assign(d,p,s,A)` followed by `assign(d,p,s,B)` the entries at the
key are exactly the single entry carrying `B`, and `lookup` resolves the
slot through the task list by id `B` only. -/
theorem schedule_assign_unique (sch : List TimeSlot) (tasks : List Task)
    (d : String) (p : Period) (n : Nat) (A B : String) (hB : B ≠ "") :
    ((scheduleTask (scheduleTask sch d p n A) d p n B).filter
        (fun e => decide (matchesKey e d p n)) = [⟨d, p, n, B⟩])
    ∧ getTaskForSlot tasks (scheduleTask (scheduleTask sch d p n A) d p n B) d p n
        = tasks.find? (fun t => t.id == B) := by
  refine ⟨scheduleTask_filter_key _ d p n B, ?_⟩
  unfold getTaskForSlot
  rw [scheduleTask_find?_key]
  simp [hB]

/-- Witness for C2 at concrete inputs: assigning `a1` then `b1` to Monday
am slot 1 leaves exactly one entry there, resolving to the `b1` task. -/
theorem schedule_assign_unique_witness :
    ("b1" ≠ "") ∧
    ((scheduleTask (scheduleTask [] "Monday" Period.am 1 "a1") "Monday" Period.am 1 "b1").filter
        (fun e => decide (matchesKey e "Monday" Period.am 1))
      = [⟨"Monday", Period.am, 1, "b1"⟩])
    ∧ getTaskForSlot [⟨"b1", "write spec", 2⟩]
        (scheduleTask (scheduleTask [] "Monday" Period.am 1 "a1") "Monday" Period.am 1 "b1")
        "Monday" Period.am 1 = some ⟨"b1", "write spec", 2⟩ :=
  ⟨by decide,
   (schedule_assign_unique [] [⟨"b1", "write spec", 2⟩] "Monday" Period.am 1 "a1" "b1"
      (by decide)).1,
   by
    rw [(schedule_assign_unique [] [⟨"b1", "write spec", 2⟩] "Monday" Period.am 1 "a1" "b1"
      (by decide)).2]
    decide⟩

/-- C7 counterexample: assigning the empty `taskId` to an empty schedule
does store an entry at the `(day, period, slot)` key, contradicting "no
entry stored". -/
theorem scheduleTask_empty_stores_entry :
    (scheduleTask [] "Monday" Period.am 1 "").filter
      (fun e => decide (matchesKey e "Monday" Period.am 1)) ≠ [] := by decide

/-- C7 amended: assigning an empty `taskId` replaces the entries at the key
by the single entry with empty `taskId`; the slot then resolves to no task,
so the assignment is observationally a clear even though an entry remains
stored. -/
theorem scheduleTask_empty_clears (sch : List TimeSlot) (tasks : List Task)
    (d : String) (p : Period) (n : Nat) :
    ((scheduleTask sch d p n "").filter (fun e => decide (matchesKey e d p n))
      = [⟨d, p, n, ""⟩])
    ∧ getTaskForSlot tasks (scheduleTask sch d p n "") d p n = none := by
  refine ⟨scheduleTask_filter_key _ d p n "", ?_⟩
  unfold getTaskForSlot
  rw [scheduleTask_find?_key]
  simp

/-! ## Capture session: bounds safety and the end-of-source handler -/

/-- C10: for every index outside the bounds of the current field list,
`updateField` leaves the state (and so the field list) completely
unchanged and returns `false`. -/
theorem updateField_out_of_bounds (s : CaptureState) (index : Int) (text : String)
    (h : index < 0 ∨ (s.phrases.length : Int) ≤ index) :
    updateField s index text = (s, false) := by
  unfold updateField
  rw [if_neg]
  rintro ⟨h1, h2⟩
  rcases h with h | h <;> omega

/-- Witness for C10: updating index 5 of the one-field initial state fails
and changes nothing. -/
theorem updateField_out_of_bounds_witness :
    ((5 : Int) < 0 ∨ (initState.phrases.length : Int) ≤ 5) ∧
      updateField initState 5 "x" = (initState, false) :=
  ⟨by decide, updateField_out_of_bounds initState 5 "x" (by decide)⟩

/-- C4: evaluation of the code at the failing scenario.  A session is
started from the idle initial state and the source confirms (`onStart`),
so the session is in `Listening` (last conjunct) and `stop()` is never
called; when the source then ends unexpectedly, the `onend` handler does
NOT request a restart (first conjunct) — its guard reads the
closure-captured `isListening`, which was `false` when `startListening`
installed the handlers — and instead it tears the session down and prunes
the blank fields (middle conjuncts), losing the empty current field. -/
theorem capture_unexpected_end_no_restart :
    (onEnd (onStart (startListening initState))).2 = false
    ∧ (onEnd (onStart (startListening initState))).1.isListening = false
    ∧ (onEnd (onStart (startListening initState))).1.phrases = []
    ∧ (onStart (startListening initState)).isListening = true := by decide

/-! ## Priority ordering (`sortedTasks`) -/

/-- Effective priorities are at least 1 (`a.priority || 4` is never 0). -/
theorem effPriority_pos (t : Task) : 1 ≤ effPriority t := by
  unfold effPriority
  split <;> omega

/-- Effective priority of a task with priority at most 4 is at most 4. -/
theorem effPriority_le_four (t : Task) (h : t.priority ≤ 4) : effPriority t ≤ 4 := by
  unfold effPriority
  split <;> omega

/-- Inserting a task between the strictly-smaller and the
not-smaller effective priorities places it exactly at the boundary. -/
theorem insertByPriority_append (t : Task) (l1 l2 : List Task)
    (h1 : ∀ u ∈ l1, effPriority u < effPriority t)
    (h2 : ∀ u ∈ l2, effPriority t ≤ effPriority u) :
    insertByPriority t (l1 ++ l2) = l1 ++ t :: l2 := by
  induction l1 with
  | nil =>
    cases l2 with
    | nil => rfl
    | cons u us =>
      simp only [List.nil_append, insertByPriority]
      rw [if_pos (h2 u (by simp))]
  | cons u l1 ih =>
    simp only [List.cons_append, insertByPriority]
    rw [if_neg (by have := h1 u (by simp); omega)]
    simp only [List.append_eq]
    rw [ih (fun v hv => h1 v (by simp [hv]))]

/-- C8 counterexample: on the two-task list with an unprioritized task
first and a priority-4 task second, the sort keeps the unprioritized task
first, so the output does not place every unprioritized task after all
prioritized tasks. -/
theorem sortedTasks_unprioritized_not_last :
    sortedTasks [⟨"u", "a", 0⟩, ⟨"t", "b", 4⟩] = [⟨"u", "a", 0⟩, ⟨"t", "b", 4⟩]
    ∧ ¬ List.Pairwise (fun a b : Task => ¬(a.priority = 0 ∧ b.priority ≠ 0))
        (sortedTasks [⟨"u", "a", 0⟩, ⟨"t", "b", 4⟩]) := by decide

/-- C8 amended: `sortedTasks` is the stable ascending sort by effective
priority (`a.priority || 4`): the result is the priority-1 tasks in their
original order, then priority 2, then priority 3, then the priority-4 and
unprioritized tasks interleaved in their original order — unprioritized
tasks are treated as priority 4, not placed after the prioritized
priority-4 tasks. -/
theorem sortedTasks_buckets (ts : List Task) (h : ∀ t ∈ ts, t.priority ≤ 4) :
    sortedTasks ts = bucket 1 ts ++ bucket 2 ts ++ bucket 3 ts ++ bucket 4 ts := by
  induction ts with
  | nil => rfl
  | cons x ts ih =>
    have hrest : ∀ t ∈ ts, t.priority ≤ 4 := fun t ht => h t (by simp [ht])
    have hlow : 1 ≤ effPriority x := effPriority_pos x
    have hhigh : effPriority x ≤ 4 := effPriority_le_four x (h x (by simp))
    have hmem : ∀ i : Nat, ∀ u ∈ bucket i ts, effPriority u = i := by
      intro i u hu
      rw [bucket, List.mem_filter, decide_eq_true_eq] at hu
      exact hu.2
    have hstep : sortedTasks (x :: ts) = insertByPriority x (sortedTasks ts) := rfl
    rw [hstep, ih hrest]
    simp only [List.append_assoc]
    have hcases : effPriority x = 1 ∨ effPriority x = 2 ∨ effPriority x = 3 ∨
        effPriority x = 4 := by omega
    rcases hcases with hk | hk | hk | hk
    · have heq := insertByPriority_append x []
        (bucket 1 ts ++ (bucket 2 ts ++ (bucket 3 ts ++ bucket 4 ts)))
        (by simp)
        (by
          intro u hu
          rcases List.mem_append.1 hu with hu | hu
          · have := hmem 1 u hu; omega
          rcases List.mem_append.1 hu with hu | hu
          · have := hmem 2 u hu; omega
          rcases List.mem_append.1 hu with hu | hu
          · have := hmem 3 u hu; omega
          · have := hmem 4 u hu; omega)
      rw [List.nil_append] at heq
      rw [heq]
      simp [bucket, List.filter_cons, hk, List.append_assoc]
    · have heq := insertByPriority_append x (bucket 1 ts)
        (bucket 2 ts ++ (bucket 3 ts ++ bucket 4 ts))
        (by intro u hu; have := hmem 1 u hu; omega)
        (by
          intro u hu
          rcases List.mem_append.1 hu with hu | hu
          · have := hmem 2 u hu; omega
          rcases List.mem_append.1 hu with hu | hu
          · have := hmem 3 u hu; omega
          · have := hmem 4 u hu; omega)
      rw [heq]
      simp [bucket, List.filter_cons, hk, List.append_assoc]
    · have heq := insertByPriority_append x (bucket 1 ts ++ bucket 2 ts)
        (bucket 3 ts ++ bucket 4 ts)
        (by
          intro u hu
          rcases List.mem_append.1 hu with hu | hu
          · have := hmem 1 u hu; omega
          · have := hmem 2 u hu; omega)
        (by
          intro u hu
          rcases List.mem_append.1 hu with hu | hu
          · have := hmem 3 u hu; omega
          · have := hmem 4 u hu; omega)
      simp only [List.append_assoc] at heq
      rw [heq]
      simp [bucket, List.filter_cons, hk, List.append_assoc]
    · have heq := insertByPriority_append x
        (bucket 1 ts ++ bucket 2 ts ++ bucket 3 ts) (bucket 4 ts)
        (by
          intro u hu
          rcases List.mem_append.1 hu with hu | hu
          · rcases List.mem_append.1 hu with hu | hu
            · have := hmem 1 u hu; omega
            · have := hmem 2 u hu; omega
          · have := hmem 3 u hu; omega)
        (by intro u hu; have := hmem 4 u hu; omega)
      simp only [List.append_assoc] at heq
      rw [heq]
      simp [bucket, List.filter_cons, hk, List.append_assoc]

/-- Witness for the amended C8 on a concrete list: a priority-2, an
unprioritized and a priority-1 task sort into priority order with the
unprioritized one last here (as an effective 4). -/
theorem sortedTasks_buckets_witness :
    (∀ t ∈ [(⟨"a", "t1", 2⟩ : Task), ⟨"b", "t2", 0⟩, ⟨"c", "t3", 1⟩], t.priority ≤ 4)
    ∧ sortedTasks [⟨"a", "t1", 2⟩, ⟨"b", "t2", 0⟩, ⟨"c", "t3", 1⟩]
        = [⟨"c", "t3", 1⟩, ⟨"a", "t1", 2⟩, ⟨"b", "t2", 0⟩] :=
  ⟨by decide,
   (sortedTasks_buckets [⟨"a", "t1", 2⟩, ⟨"b", "t2", 0⟩, ⟨"c", "t3", 1⟩]
      (by decide)).trans (by decide)⟩

/-! ## Trimming lemmas -/

/-- Dropping a prefix of matching elements twice is the same as once. -/
theorem dropWhile_idem (p : α → Bool) (l : List α) :
    (l.dropWhile p).dropWhile p = l.dropWhile p := by
  induction l with
  | nil => rfl
  | cons a l ih =>
    by_cases hp : p a = true
    · simp [List.dropWhile_cons, hp, ih]
    · simp [List.dropWhile_cons, hp]

/-- The head surviving `dropWhile` fails the predicate. -/
theorem dropWhile_head_false (p : α → Bool) (l : List α) (a : α) (t : List α)
    (h : l.dropWhile p = a :: t) : p a = false := by
  induction l with
  | nil => simp at h
  | cons b l ih =>
    rw [List.dropWhile_cons] at h
    by_cases hb : p b = true
    · rw [if_pos hb] at h
      exact ih h
    · rw [if_neg hb] at h
      obtain ⟨rfl, rfl⟩ : b = a ∧ l = t := by
        constructor <;> [exact (List.cons.injEq ..).mp h |>.1;
          exact (List.cons.injEq ..).mp h |>.2]
      simpa using hb

/-- The survivor of a reverse-side trim still starts with the head of the
original list, so when that head fails the predicate a front `dropWhile`
removes nothing. -/
theorem dropWhile_reverse_dropWhile (p : α → Bool) (d : List α)
    (hhead : ∀ a t, d = a :: t → p a = false) :
    ((d.reverse.dropWhile p).reverse).dropWhile p = (d.reverse.dropWhile p).reverse := by
  have hpre : (d.reverse.dropWhile p).reverse <+: d := by
    rw [← List.reverse_suffix]
    simpa using List.dropWhile_suffix (l := d.reverse) p
  cases ht : (d.reverse.dropWhile p).reverse with
  | nil => rfl
  | cons c t2 =>
    rw [ht] at hpre
    cases d with
    | nil => simp at hpre
    | cons a d2 =>
      obtain ⟨u, hu⟩ := hpre
      have hca : c = a := by
        have := congrArg (fun l => l.head?) hu
        simpa using this
      rw [hca]
      simp [List.dropWhile_cons, hhead a d2 rfl]

/-- Trimming the character list is idempotent. -/
theorem trimChars_idem (cs : List Char) : trimChars (trimChars cs) = trimChars cs := by
  unfold trimChars
  rw [dropWhile_reverse_dropWhile Char.isWhitespace (cs.dropWhile Char.isWhitespace)
    (fun a t h => dropWhile_head_false _ cs a t h)]
  rw [List.reverse_reverse, dropWhile_idem]

/-- Idempotence of the JS trim model. -/
theorem jsTrim_idem (s : String) : jsTrim (jsTrim s) = jsTrim s := by
  unfold jsTrim
  rw [show (String.mk (trimChars s.data)).data = trimChars s.data from rfl, trimChars_idem]

/-! ## Capture session runs -/

/-- An indexed filter whose predicate ignores the index is a plain filter. -/
theorem filterWithIndex_const (f : String → Bool) (pred : Nat → String → Bool)
    (hpred : ∀ i p, pred i p = f p) (k : Nat) (l : List String) :
    filterWithIndex pred k l = l.filter f := by
  induction l generalizing k with
  | nil => rfl
  | cons p l ih =>
    rw [filterWithIndex, List.filter_cons, hpred]
    by_cases hp : f p = true
    · rw [if_pos hp, if_pos hp, ih]
    · rw [if_neg hp, if_neg hp, ih]

/-- Pruning with `isListening = false` keeps exactly the non-blank fields. -/
theorem pruneBlank_false (l : List String) :
    pruneBlank false l = l.filter (fun p => jsTrim p != "") := by
  unfold pruneBlank
  exact filterWithIndex_const (fun p => jsTrim p != "") _ (fun i p => by simp) 0 l

/-- Setting the position just before a trailing singleton replaces it. -/
theorem set_before_last (l : List String) (x y : String) :
    (l ++ [x]).set l.length y = l ++ [y] := by
  rw [List.set_append, if_neg (by omega)]
  simp

/-- Step lemma for a non-blank final transcript while a current field is
designated and in bounds: the trimmed text is committed at the current
index and a fresh empty field is appended and becomes current. -/
theorem processResult_final_step (s : CaptureState) (t : String) (i : Nat)
    (hidx : s.currentFieldIndex = (i : Int))
    (hlt : i < s.phrases.length)
    (ht : jsTrim t ≠ "") :
    processResult s ⟨true, t⟩ =
      { s with phrases := s.phrases.set i (jsTrim t) ++ [""],
               currentFieldIndex := (s.phrases.length : Int),
               hasSpoken := true } := by
  have hne : ¬ (s.currentFieldIndex = -1) := by rw [hidx]; omega
  have hbounds : 0 ≤ s.currentFieldIndex ∧ s.currentFieldIndex < (s.phrases.length : Int) := by
    rw [hidx]
    constructor <;> omega
  have htoNat : s.currentFieldIndex.toNat = i := by rw [hidx]; exact Int.toNat_ofNat i
  simp only [processResult, updateField, addEmptyField]
  rw [if_neg ht, if_neg hne, if_pos hbounds]
  simp only [htoNat]
  have hlen : (s.phrases.set i (jsTrim t)).length = s.phrases.length := List.length_set ..
  simp [hlen]

/-- Invariant of a listening session processing final transcripts: the
field list stays `blanks ++ committed ++ [current empty field]`, with the
current index pointing at the trailing empty field, and the captured
`isListening` value untouched. -/
theorem runFinals_invariant (evs : List String) (blanks : List String) :
    ∀ (acc : List String) (s : CaptureState),
    s.phrases = blanks ++ acc ++ [""] →
    s.currentFieldIndex = ((blanks.length + acc.length : Nat) : Int) →
    (∀ a ∈ acc, jsTrim a ≠ "") →
    ((evs.foldl (fun st t => processResult st ⟨true, t⟩) s).phrases
        = blanks ++ (acc ++ committedTexts evs) ++ [""])
    ∧ ((evs.foldl (fun st t => processResult st ⟨true, t⟩) s).capturedIsListening
        = s.capturedIsListening)
    ∧ (∀ a ∈ acc ++ committedTexts evs, jsTrim a ≠ "") := by
  induction evs with
  | nil =>
    intro acc s hp hi hacc
    refine ⟨by simpa [committedTexts] using hp, rfl, ?_⟩
    simpa [committedTexts] using hacc
  | cons t evs ih =>
    intro acc s hp hi hacc
    by_cases ht : jsTrim t = ""
    · have hstep : processResult s ⟨true, t⟩ = s := by
        simp [processResult, ht]
      rw [List.foldl_cons, hstep]
      have hrec := ih acc s hp hi hacc
      simpa [committedTexts, List.filterMap_cons, ht] using hrec
    · have hlen : blanks.length + acc.length < s.phrases.length := by
        rw [hp]
        simp
      have hstep := processResult_final_step s t (blanks.length + acc.length)
        hi hlen ht
      rw [List.foldl_cons, hstep]
      have hset : s.phrases.set (blanks.length + acc.length) (jsTrim t)
          = (blanks ++ acc) ++ [jsTrim t] := by
        rw [hp, show blanks.length + acc.length = (blanks ++ acc).length by simp]
        exact set_before_last (blanks ++ acc) "" (jsTrim t)
      have hrec := ih (acc ++ [jsTrim t])
        { s with phrases := s.phrases.set (blanks.length + acc.length) (jsTrim t) ++ [""],
                 currentFieldIndex := (s.phrases.length : Int),
                 hasSpoken := true }
        (by
          show s.phrases.set (blanks.length + acc.length) (jsTrim t) ++ [""] = _
          rw [hset, List.append_assoc blanks acc [jsTrim t]])
        (by
          show (s.phrases.length : Int) = _
          rw [hp]
          simp)
        (by
          intro a ha
          rcases List.mem_append.1 ha with ha | ha
          · exact hacc a ha
          · have : a = jsTrim t := by simpa using ha
            rw [this, jsTrim_idem]
            exact ht)
      refine ⟨?_, ?_, ?_⟩
      · rw [hrec.1]
        simp [committedTexts, List.filterMap_cons, ht, List.append_assoc]
      · rw [hrec.2.1]
      · intro a ha
        refine hrec.2.2 a ?_
        simpa [committedTexts, List.filterMap_cons, ht, List.append_assoc] using ha

/-- C3 counterexample: a final transcript event whose text is blank (a
single space) leaves the listening session completely unchanged — nothing
is committed and no new empty field is opened, although the session is
`Listening` with two fields and a designated current field. -/
theorem capture_blank_final_ignored :
    processResult (onStart (startListening initState)) ⟨true, " "⟩
      = onStart (startListening initState)
    ∧ (onStart (startListening initState)).phrases.length = 2
    ∧ (onStart (startListening initState)).isListening = true := by decide

/-- C3 amended: a final transcript event with non-blank text, received
while a current field is designated and in bounds, commits the trimmed
transcript into the current field (overwriting its prior content), appends
a new empty field (the new last field) and makes it current — the new
current index differs from the committed one, so consecutive finals land
in distinct fields. -/
theorem capture_final_commits_new_field (s : CaptureState) (t : String) (i : Nat)
    (hidx : s.currentFieldIndex = (i : Int))
    (hlt : i < s.phrases.length)
    (ht : jsTrim t ≠ "") :
    (processResult s ⟨true, t⟩).phrases = s.phrases.set i (jsTrim t) ++ [""]
    ∧ (processResult s ⟨true, t⟩).currentFieldIndex = (s.phrases.length : Int)
    ∧ (processResult s ⟨true, t⟩).phrases.getLast? = some ""
    ∧ (s.phrases.length : Int) ≠ (i : Int) := by
  rw [processResult_final_step s t i hidx hlt ht]
  refine ⟨rfl, rfl, ?_, ?_⟩
  · simp
  · omega

/-- Witness for the amended C3: in a fresh listening session the final
transcript `hi` lands in the current field and a new empty field opens. -/
theorem capture_final_commits_new_field_witness :
    ((onStart (startListening initState)).currentFieldIndex = ((1 : Nat) : Int))
    ∧ (1 < (onStart (startListening initState)).phrases.length)
    ∧ jsTrim "hi" ≠ ""
    ∧ (processResult (onStart (startListening initState)) ⟨true, "hi"⟩).phrases
        = ["", "hi", ""]
    ∧ (processResult (onStart (startListening initState)) ⟨true, "hi"⟩).currentFieldIndex
        = 2 :=
  ⟨by decide, by decide, by decide,
   by
    rw [(capture_final_commits_new_field (onStart (startListening initState)) "hi" 1
      (by decide) (by decide) (by decide)).1]
    decide,
   by
    rw [(capture_final_commits_new_field (onStart (startListening initState)) "hi" 1
      (by decide) (by decide) (by decide)).2.1]
    decide⟩

/-- C5 counterexample: a session delivering exactly one final event with
the non-blank text with surrounding spaces ends with the single committed
field holding the trimmed text, which is not the event's text. -/
theorem capture_stop_field_not_raw_text :
    ((onEnd (stopListening (processResult (onStart (startListening initState))
        ⟨true, " buy milk "⟩))).1).phrases = ["buy milk"]
    ∧ ("buy milk" : String) ≠ " buy milk " := by decide

/-- C5 amended: for every idle starting state and every sequence of final
transcript events delivered while listening, the field list after `stop()`
(and the source's resulting end event) is the non-blank pre-session fields
followed by exactly one field per final event with non-blank text, holding
that event's trimmed text, in delivery order — blank fields are pruned and
no non-blank field is ever removed. -/
theorem capture_session_fields (s0 : CaptureState) (evs : List String)
    (hidle : s0.isListening = false) :
    ((onEnd (stopListening (evs.foldl (fun st t => processResult st ⟨true, t⟩)
        (onStart (startListening s0))))).1).phrases
      = s0.phrases.filter (fun p => jsTrim p != "") ++ committedTexts evs := by
  have hp1 : (onStart (startListening s0)).phrases = s0.phrases ++ [] ++ [""] := by
    simp [onStart, startListening, addEmptyField]
  have hi1 : (onStart (startListening s0)).currentFieldIndex
      = ((s0.phrases.length + List.length ([] : List String) : Nat) : Int) := by
    simp [onStart, startListening, addEmptyField]
  have hcap1 : (onStart (startListening s0)).capturedIsListening = false := by
    simp [onStart, startListening, addEmptyField, hidle]
  have hrun := runFinals_invariant evs s0.phrases [] (onStart (startListening s0))
    hp1 hi1 (by simp)
  set s2 := evs.foldl (fun st t => processResult st ⟨true, t⟩)
    (onStart (startListening s0)) with hs2
  have hph2 : s2.phrases = s0.phrases ++ committedTexts evs ++ [""] := by
    have h := hrun.1
    simpa using h
  have hcap2 : s2.capturedIsListening = false := by rw [hrun.2.1, hcap1]
  have hctexts : ∀ a ∈ committedTexts evs, jsTrim a ≠ "" := by
    intro a ha
    exact hrun.2.2 a (by simpa using ha)
  have hstop_ph : (stopListening s2).phrases = s2.phrases := rfl
  have hstop_cap : (stopListening s2).capturedIsListening = s2.capturedIsListening := rfl
  have hend : (onEnd (stopListening s2)).1.phrases
      = pruneBlank false ((stopListening s2).phrases.filter (fun p => jsTrim p != "")) := by
    unfold onEnd
    rw [if_neg (by rw [hstop_cap, hcap2]; simp)]
    simp [hstop_cap, hcap2]
  rw [hend, hstop_ph, hph2]
  rw [List.filter_append, List.filter_append]
  have h2 : (committedTexts evs).filter (fun p => jsTrim p != "") = committedTexts evs := by
    rw [List.filter_eq_self]
    intro a ha
    simpa using hctexts a ha
  have h3 : List.filter (fun p => jsTrim p != "") [""] = [] := by decide
  rw [h2, h3, List.append_nil, pruneBlank_false, List.filter_append]
  rw [List.filter_filter]
  have h4 : (s0.phrases.filter (fun p => (jsTrim p != "") && (jsTrim p != ""))) =
      s0.phrases.filter (fun p => jsTrim p != "") := by
    simp
  rw [h4, h2]

/-- Witness for the amended C5: two non-blank finals separated by a blank
final produce exactly the two trimmed fields in delivery order. -/
theorem capture_session_fields_witness :
    initState.isListening = false
    ∧ ((onEnd (stopListening (List.foldl (fun st t => processResult st ⟨true, t⟩)
        (onStart (startListening initState))
        ["buy milk", " ", " call mom "]))).1).phrases
      = ["buy milk", "call mom"] :=
  ⟨rfl,
   (capture_session_fields initState ["buy milk", " ", " call mom "] rfl).trans
     (by decide)⟩

/-! ## Task registry (`handleTasksChange`, the spec's `reconcile`) -/

/-- A content-map hit returns a task with exactly that content. -/
theorem existingTaskFor_content (prevTasks : List Task) (c : String) (t : Task)
    (h : existingTaskFor prevTasks c = some t) : t.content = c := by
  have := List.find?_some h
  simpa using this

/-- A content-map hit returns a member of the previous task list. -/
theorem existingTaskFor_mem (prevTasks : List Task) (c : String) (t : Task)
    (h : existingTaskFor prevTasks c = some t) : t ∈ prevTasks := by
  have := List.mem_of_find?_eq_some h
  simpa using this

/-- A content-map hit is preserved when a task is prepended to the list
(the `Map` prefers later entries, and the new head is the earliest). -/
theorem existingTaskFor_cons_of_some (l : List Task) (x : Task) (c : String)
    (u : Task) (h : existingTaskFor l c = some u) :
    existingTaskFor (x :: l) c = some u := by
  unfold existingTaskFor at h ⊢
  rw [List.reverse_cons, List.find?_append, h]
  rfl

/-- The generator-call counter does not change the result length. -/
theorem handleTasksChangeGo_length (gen : Nat → String) (prevTasks : List Task) :
    ∀ (cs : List String) (k : Nat),
      (handleTasksChangeGo gen prevTasks cs k).length = cs.length := by
  intro cs
  induction cs with
  | nil => intro k; rfl
  | cons c cs ih =>
    intro k
    cases h : existingTaskFor prevTasks c with
    | none => simp [handleTasksChangeGo, h, ih]
    | some t => simp [handleTasksChangeGo, h, ih]

/-- Every produced task carries one of the requested contents. -/
theorem handleTasksChangeGo_content_mem (gen : Nat → String) (prevTasks : List Task) :
    ∀ (cs : List String) (k : Nat) (r : Task),
      r ∈ handleTasksChangeGo gen prevTasks cs k → r.content ∈ cs := by
  intro cs
  induction cs with
  | nil => intro k r hr; simp [handleTasksChangeGo] at hr
  | cons c cs ih =>
    intro k r hr
    cases h : existingTaskFor prevTasks c with
    | none =>
      rw [handleTasksChangeGo, h] at hr
      rcases List.mem_cons.1 hr with rfl | hr
      · simp
      · exact List.mem_cons_of_mem _ (ih (k + 1) r hr)
    | some t =>
      rw [handleTasksChangeGo, h] at hr
      rcases List.mem_cons.1 hr with rfl | hr
      · rw [existingTaskFor_content prevTasks c r h]
        simp
      · exact List.mem_cons_of_mem _ (ih k r hr)

/-- The produced contents are exactly the requested contents, in order. -/
theorem handleTasksChangeGo_map_content (gen : Nat → String) (prevTasks : List Task) :
    ∀ (cs : List String) (k : Nat),
      (handleTasksChangeGo gen prevTasks cs k).map (fun r => r.content) = cs := by
  intro cs
  induction cs with
  | nil => intro k; rfl
  | cons c cs ih =>
    intro k
    cases h : existingTaskFor prevTasks c with
    | none => simp [handleTasksChangeGo, h, ih]
    | some t => simp [handleTasksChangeGo, h, ih, existingTaskFor_content prevTasks c t h]

/-- Positionwise behaviour of the reconcile worker: a matched content
reuses exactly the mapped task and an unmatched content yields a fresh
task with that content, no priority, and an id from the generator that
avoids every previous task's id. -/
theorem handleTasksChangeGo_forall₂ (gen : Nat → String) (prevTasks : List Task)
    (hfresh : ∀ k, ∀ u ∈ prevTasks, gen k ≠ u.id) :
    ∀ (cs : List String) (k : Nat),
      List.Forall₂ (fun c r =>
        (∀ t, existingTaskFor prevTasks c = some t → r = t)
        ∧ (existingTaskFor prevTasks c = none →
            r.content = c ∧ r.priority = 0 ∧ ∀ u ∈ prevTasks, r.id ≠ u.id))
        cs (handleTasksChangeGo gen prevTasks cs k) := by
  intro cs
  induction cs with
  | nil => intro k; exact List.Forall₂.nil
  | cons c cs ih =>
    intro k
    cases h : existingTaskFor prevTasks c with
    | none =>
      rw [handleTasksChangeGo, h]
      refine List.Forall₂.cons ⟨?_, ?_⟩ (ih (k + 1))
      · intro t ht
        rw [h] at ht
        exact absurd ht (by simp)
      · intro _
        exact ⟨rfl, rfl, fun u hu => hfresh k u hu⟩
    | some t =>
      rw [handleTasksChangeGo, h]
      refine List.Forall₂.cons ⟨?_, ?_⟩ (ih k)
      · intro t2 ht2
        rw [h] at ht2
        exact (Option.some.injEq ..).mp ht2
      · intro hnone
        rw [h] at hnone
        exact absurd hnone (by simp)

/-- Ids of freshly created tasks are pairwise distinct (the generator is
called with strictly increasing counters), and every fresh id comes from a
generator call at or after the current counter. -/
theorem handleTasksChangeGo_fresh_ids (gen : Nat → String) (prevTasks : List Task)
    (hinj : ∀ j k : Nat, gen j = gen k → j = k) :
    ∀ (cs : List String) (k : Nat),
      List.Pairwise (fun a b : Task =>
        (existingTaskFor prevTasks a.content).isNone →
        (existingTaskFor prevTasks b.content).isNone → a.id ≠ b.id)
        (handleTasksChangeGo gen prevTasks cs k)
      ∧ (∀ r ∈ handleTasksChangeGo gen prevTasks cs k,
          (existingTaskFor prevTasks r.content).isNone →
          ∃ j : Nat, k ≤ j ∧ r.id = gen j) := by
  intro cs
  induction cs with
  | nil => intro k; exact ⟨List.Pairwise.nil, by simp [handleTasksChangeGo]⟩
  | cons c cs ih =>
    intro k
    cases h : existingTaskFor prevTasks c with
    | some t =>
      rw [handleTasksChangeGo, h]
      have htc : existingTaskFor prevTasks t.content = some t := by
        rw [existingTaskFor_content prevTasks c t h]
        exact h
      constructor
      · refine List.Pairwise.cons ?_ (ih k).1
        intro b hb habs
        rw [htc] at habs
        simp at habs
      · intro r hr hrnone
        rcases List.mem_cons.1 hr with rfl | hr
        · rw [htc] at hrnone
          simp at hrnone
        · exact (ih k).2 r hr hrnone
    | none =>
      rw [handleTasksChangeGo, h]
      constructor
      · refine List.Pairwise.cons ?_ (ih (k + 1)).1
        intro b hb _ hbnone
        obtain ⟨j, hj, hbj⟩ := (ih (k + 1)).2 b hb hbnone
        show (⟨gen k, c, 0⟩ : Task).id ≠ b.id
        rw [hbj]
        intro habs
        have := hinj k j habs
        omega
      · intro r hr hrnone
        rcases List.mem_cons.1 hr with rfl | hr
        · exact ⟨k, le_refl k, rfl⟩
        · obtain ⟨j, hj, hrj⟩ := (ih (k + 1)).2 r hr hrnone
          exact ⟨j, by omega, hrj⟩

/-- C1: `reconcile` returns one task per input string in input order: a
content matched in the previous list reuses that task unchanged, an
unmatched content gets a fresh task with no priority and a generated id
distinct from every previous task's id, distinct fresh tasks get distinct
ids, and every previous task whose content is not requested is absent from
the result. -/
theorem reconcile_spec (gen : Nat → String) (prevTasks : List Task)
    (contents : List String)
    (hinj : ∀ j k : Nat, gen j = gen k → j = k)
    (hfresh : ∀ k, ∀ u ∈ prevTasks, gen k ≠ u.id) :
    (handleTasksChange gen prevTasks contents).length = contents.length
    ∧ List.Forall₂ (fun c r =>
        (∀ t, existingTaskFor prevTasks c = some t → r = t)
        ∧ (existingTaskFor prevTasks c = none →
            r.content = c ∧ r.priority = 0 ∧ ∀ u ∈ prevTasks, r.id ≠ u.id))
        contents (handleTasksChange gen prevTasks contents)
    ∧ List.Pairwise (fun a b : Task =>
        (existingTaskFor prevTasks a.content).isNone →
        (existingTaskFor prevTasks b.content).isNone → a.id ≠ b.id)
        (handleTasksChange gen prevTasks contents)
    ∧ ∀ t ∈ prevTasks, t.content ∉ contents →
        t ∉ handleTasksChange gen prevTasks contents := by
  refine ⟨handleTasksChangeGo_length gen prevTasks contents 0,
    handleTasksChangeGo_forall₂ gen prevTasks hfresh contents 0,
    (handleTasksChangeGo_fresh_ids gen prevTasks hinj contents 0).1, ?_⟩
  intro t ht htc habs
  exact htc (handleTasksChangeGo_content_mem gen prevTasks contents 0 t habs)

/-- The witness generator is injective: runs of x of different lengths are
different strings. -/
theorem genX_inj : ∀ j k : Nat, genX j = genX k → j = k := by
  intro j k h
  have h2 : (List.replicate j 'x').length = (List.replicate k 'x').length :=
    congrArg (fun s => s.data.length) h
  simpa using h2

/-- The witness generator never returns the pre-existing id `ab`. -/
theorem genX_ne_ab : ∀ k : Nat, genX k ≠ "ab" := by
  intro k h
  have hd : List.replicate k 'x' = ("ab" : String).data := congrArg String.data h
  have hx : 'a' ∈ List.replicate k 'x' := by
    rw [hd]
    decide
  have := List.eq_of_mem_replicate hx
  simp at this

/-- Witness for C1 at the spec's own scenario: `buy milk` is matched and
reused with id and priority intact, `call mom` gets a fresh generated id
and no priority. -/
theorem reconcile_spec_witness :
    (∀ j k : Nat, genX j = genX k → j = k)
    ∧ (∀ k, ∀ u ∈ [(⟨"ab", "buy milk", 2⟩ : Task)], genX k ≠ u.id)
    ∧ (handleTasksChange genX [⟨"ab", "buy milk", 2⟩] ["buy milk", "call mom"]).length
        = (["buy milk", "call mom"] : List String).length
    ∧ handleTasksChange genX [⟨"ab", "buy milk", 2⟩] ["buy milk", "call mom"]
        = [⟨"ab", "buy milk", 2⟩, ⟨"", "call mom", 0⟩] :=
  ⟨genX_inj,
   fun k u hu => by
     have hu2 : u = ⟨"ab", "buy milk", 2⟩ := by simpa using hu
     rw [hu2]
     exact genX_ne_ab k,
   (reconcile_spec genX [⟨"ab", "buy milk", 2⟩] ["buy milk", "call mom"] genX_inj
     (fun k u hu => by
       have hu2 : u = ⟨"ab", "buy milk", 2⟩ := by simpa using hu
       rw [hu2]
       exact genX_ne_ab k)).1,
   by decide⟩

/-- C6 counterexample: with duplicate contents, reconciling twice is not
the same as once — on `contents = [a, a]` over no previous tasks the first
pass creates two distinct fresh tasks, and the second pass maps both
occurrences to the later one. -/
theorem reconcile_not_idem :
    handleTasksChange genX (handleTasksChange genX [] ["a", "a"]) ["a", "a"]
      ≠ handleTasksChange genX [] ["a", "a"] := by decide

/-- Positionwise lookup hits reconstruct a task list whose contents are
distinct: each content finds exactly its own task. -/
theorem existingTaskFor_forall₂ (l : List Task) (cs : List String)
    (hmap : l.map (fun r => r.content) = cs) (hnodup : cs.Nodup) :
    List.Forall₂ (fun c t => existingTaskFor l c = some t) cs l := by
  induction l generalizing cs with
  | nil =>
    obtain rfl : cs = [] := by simpa using hmap.symm
    exact List.Forall₂.nil
  | cons t l2 ih =>
    obtain rfl : cs = t.content :: l2.map (fun r => r.content) := by
      simpa using hmap.symm
    have hnotin : t.content ∉ l2.map (fun r => r.content) := (List.nodup_cons.1 hnodup).1
    refine List.Forall₂.cons ?_ ?_
    · unfold existingTaskFor
      rw [List.reverse_cons, List.find?_append]
      have hnone : l2.reverse.find? (fun u => u.content == t.content) = none := by
        rw [List.find?_eq_none]
        intro x hx
        have : x.content ∈ l2.map (fun r => r.content) :=
          List.mem_map_of_mem _ (List.mem_reverse.1 hx)
        simp only [beq_iff_eq]
        intro habs
        rw [habs] at this
        exact hnotin this
      rw [hnone]
      simp
    · exact List.Forall₂.imp
        (fun c u h => existingTaskFor_cons_of_some l2 t c u h)
        (ih (l2.map (fun r => r.content)) rfl (List.nodup_cons.1 hnodup).2)

/-- When every requested content already resolves to a task, the reconcile
worker returns exactly those tasks, for any generator and counter. -/
theorem handleTasksChangeGo_all_found (gen2 : Nat → String) (L : List Task)
    (cs : List String) (l : List Task)
    (hf : List.Forall₂ (fun c t => existingTaskFor L c = some t) cs l) :
    ∀ k : Nat, handleTasksChangeGo gen2 L cs k = l := by
  induction hf with
  | nil => intro k; rfl
  | @cons c t cs2 l2 h hf2 ih =>
    intro k
    rw [handleTasksChangeGo, h]
    rw [ih k]

/-- C6 amended: for every previous task list, `reconcile` applied twice
with the same duplicate-free content list equals `reconcile` applied once
— task ids and priorities are unchanged by the second pass; duplicates in
the content list (flagged as an open ambiguity by the spec) are the only
exception. -/
theorem reconcile_idem (gen gen2 : Nat → String) (prevTasks : List Task)
    (contents : List String) (hnodup : contents.Nodup) :
    handleTasksChange gen2 (handleTasksChange gen prevTasks contents) contents
      = handleTasksChange gen prevTasks contents := by
  apply handleTasksChangeGo_all_found
  exact existingTaskFor_forall₂ (handleTasksChange gen prevTasks contents) contents
    (handleTasksChangeGo_map_content gen prevTasks contents 0) hnodup

/-- Witness for the amended C6 on a concrete duplicate-free content list. -/
theorem reconcile_idem_witness :
    (["b", "c"] : List String).Nodup
    ∧ handleTasksChange genX (handleTasksChange genX [] ["b", "c"]) ["b", "c"]
        = handleTasksChange genX [] ["b", "c"] :=
  ⟨by decide, reconcile_idem genX genX [] ["b", "c"] (by decide)⟩

/-! ## Persistence initialisation -/

/-- C9 counterexample: when the stored value is present, truthy (non-empty)
but malformed, the initializer propagates the `JSON.parse` exception
instead of producing the empty default — there is no `try`/`catch` around
the parse. -/
theorem tasksInit_malformed_fails :
    tasksInit malformedParse (some "notjson")
      = Except.error "SyntaxError: Unexpected end of JSON input"
    ∧ tasksInit malformedParse (some "notjson") ≠ Except.ok []
    ∧ scheduleInit malformedScheduleParse (some "notjson") ≠ Except.ok [] := by
  refine ⟨?_, ?_, ?_⟩ <;> simp [tasksInit, scheduleInit, malformedParse, malformedScheduleParse]

/-- C9 amended: for both the task-list and the schedule initializer, an
absent stored value and the falsy empty-string stored value each yield the
empty default without parsing; a non-empty malformed stored value makes
initialization fail with the parse error, which escapes unhandled. -/
theorem tasksInit_spec (parseT : String → Except String (List Task))
    (parseS : String → Except String (List TimeSlot)) (s eT eS : String)
    (hs : s ≠ "") (hpT : parseT s = Except.error eT)
    (hpS : parseS s = Except.error eS) :
    tasksInit parseT none = Except.ok []
    ∧ tasksInit parseT (some "") = Except.ok []
    ∧ scheduleInit parseS none = Except.ok []
    ∧ scheduleInit parseS (some "") = Except.ok []
    ∧ tasksInit parseT (some s) = Except.error eT
    ∧ scheduleInit parseS (some s) = Except.error eS := by
  refine ⟨rfl, by simp [tasksInit], rfl, by simp [scheduleInit], ?_, ?_⟩
  · show (if s = "" then Except.ok [] else parseT s) = Except.error eT
    rw [if_neg hs, hpT]
  · show (if s = "" then Except.ok [] else parseS s) = Except.error eS
    rw [if_neg hs, hpS]

/-- Witness for the amended C9 at the concrete malformed-parse behaviour. -/
theorem tasksInit_spec_witness :
    ("notjson" : String) ≠ ""
    ∧ (malformedParse "notjson" = Except.error "SyntaxError: Unexpected end of JSON input")
    ∧ tasksInit malformedParse none = Except.ok []
    ∧ tasksInit malformedParse (some "") = Except.ok []
    ∧ scheduleInit malformedScheduleParse none = Except.ok []
    ∧ scheduleInit malformedScheduleParse (some "") = Except.ok []
    ∧ tasksInit malformedParse (some "notjson")
        = Except.error "SyntaxError: Unexpected end of JSON input"
    ∧ scheduleInit malformedScheduleParse (some "notjson")
        = Except.error "SyntaxError: Unexpected end of JSON input" :=
  ⟨by decide, rfl,
   (tasksInit_spec malformedParse malformedScheduleParse "notjson" _ _
      (by decide) rfl rfl).1,
   (tasksInit_spec malformedParse malformedScheduleParse "notjson" _ _
      (by decide) rfl rfl).2.1,
   (tasksInit_spec malformedParse malformedScheduleParse "notjson" _ _
      (by decide) rfl rfl).2.2.1,
   (tasksInit_spec malformedParse malformedScheduleParse "notjson" _ _
      (by decide) rfl rfl).2.2.2.1,
   (tasksInit_spec malformedParse malformedScheduleParse "notjson" _ _
      (by decide) rfl rfl).2.2.2.2.1,
   (tasksInit_spec malformedParse malformedScheduleParse "notjson" _ _
      (by decide) rfl rfl).2.2.2.2.2⟩

end Hippoplan
